import Mathlib

/-!
Verification development for the ffplayout filter-graph construction engine
(`engine/src/player/filter/mod.rs`).

Rust `String`s are modelled as lists of characters (`Str`); every Rust string
operation used by the code is translated to the corresponding list operation
(`push_str` becomes `++`, `starts_with` becomes `List.isPrefixOf`, `split` on a
character becomes a recursive splitter, `contains` on a pattern becomes a
recursive substring search, and decimal `Display` formatting of integers
becomes `Nat.toDigits`-based formatting).  Rust `f64` timing fields are
modelled as exact rationals, which preserves the control flow of every
comparison the code performs.  Fallible indexing is modelled with `Option`.
-/

/-- Character-list model of a Rust `String` / `&str`. -/
abbrev Str := List Char

/-- Literal helper: the character list of a Lean string literal. -/
def str (s : String) : Str := s.data

/-- Substring containment, the model of Rust `str::contains` with a string
pattern: some (contiguous) occurrence of `pat` exists inside `l`. -/
def containsSub : Str → Str → Bool
  | l, pat =>
    match l with
    | [] => pat.isPrefixOf ([] : Str)
    | _ :: r => pat.isPrefixOf l || containsSub r pat

/-- Model of Rust `str::split` on a one-character separator given by the
predicate `p`: the list of (possibly empty) segments between separators. -/
def splitP (p : Char → Bool) : Str → List Str
  | [] => [[]]
  | c :: r =>
    if p c then [] :: splitP p r
    else
      match splitP p r with
      | [] => [[c]]
      | s :: ss => (c :: s) :: ss

/-- Model of Rust `str::split_terminator`: like `split`, but a trailing empty
segment produced by a terminating separator is dropped, and the empty string
yields no segments. -/
def split_terminator (p : Char → Bool) (l : Str) : List Str :=
  let parts := splitP p l
  if parts.getLast? = some ([] : Str) then parts.dropLast else parts

/-- Model of Rust `str::trim` (the chain tokens the code trims never contain
whitespace, so only ASCII whitespace needs to be considered). -/
def trimL (l : Str) : Str :=
  ((l.dropWhile Char.isWhitespace).reverse.dropWhile Char.isWhitespace).reverse

/-- Model of Rust `str::replace`: replace every (leftmost, non-overlapping)
occurrence of `pat` by `rep`. -/
def replaceAll (l pat rep : Str) : Str :=
  if h : pat = [] then l
  else
    match l with
    | [] => []
    | c :: rest =>
      if pat.isPrefixOf (c :: rest) then rep ++ replaceAll ((c :: rest).drop pat.length) pat rep
      else c :: replaceAll rest pat rep
termination_by l.length
decreasing_by
  · simp only [List.length_drop, List.length_cons]
    have : 0 < pat.length := List.length_pos.mpr h
    omega
  · simp

/-- Decimal digits of a natural number, the model of Rust decimal `Display`
for unsigned values. -/
def natStr (n : Nat) : Str := Nat.toDigits 10 n

/-- Decimal rendering of an integer, the model of Rust decimal `Display` for
`i32` values. -/
def intStr (i : Int) : Str :=
  if i < 0 then '-' :: natStr (-i).toNat else natStr i.toNat

/-- Rendering of a rational timing value.  This stands in for Rust `f64`
`Display` formatting; no theorem depends on the exact digits produced, only on
the fact that some text is produced. -/
def ratStr (r : Rat) : Str :=
  if r.den = 1 then intStr r.num else intStr r.num ++ str "/" ++ natStr r.den

/-- Modelled from the spec: `custom_format` lives in the repository's shared
utility crate, whose source file is not part of this snapshot.  The spec
describes override templates as "a user-supplied filter expression with
substitution placeholders, filled in via configuration values", so the model
replaces successive occurrences of the placeholder token with the successive
arguments. -/
def custom_format (template : Str) (args : List Str) : Str :=
  args.foldl (fun acc a => replaceFirst acc (str "\x7b\x7d") a) template
where
  replaceFirst (l pat rep : Str) : Str :=
    if h : pat = [] then l
    else
      match l with
      | [] => []
      | c :: rest =>
        if pat.isPrefixOf (c :: rest) then rep ++ (c :: rest).drop pat.length
        else c :: replaceFirst rest pat rep

/-! ## Configuration and media item -/

/-- The decoder section of the advanced configuration (`advanced.decoder`). -/
structure DecoderCfg where
  input_param : Option Str
deriving DecidableEq

/-- The per-filter override templates (`advanced.filter`); only the fields the
embedded functions read are modelled. -/
structure FilterCfg where
  deinterlace : Option Str := none
  scale : Option Str := none
  fade_in : Option Str := none
  fade_out : Option Str := none
  afade_in : Option Str := none
  afade_out : Option Str := none
deriving DecidableEq

/-- The advanced configuration section. -/
structure AdvancedCfg where
  decoder : DecoderCfg
  filter : FilterCfg
deriving DecidableEq

/-- The processing section of the configuration; only fields read by the
embedded functions are modelled. -/
structure ProcessingCfg where
  width : Int := 1024
  height : Int := 576
  audio_only : Bool := false
  audio_tracks : Int := 1
deriving DecidableEq

/-- The configuration slice consumed by the filter engine. -/
structure PlayoutConfig where
  advanced : AdvancedCfg
  processing : ProcessingCfg
deriving DecidableEq

/-- A default configuration with no overrides, used for concrete instances. -/
def cfg0 : PlayoutConfig :=
  { advanced := { decoder := { input_param := none }, filter := {} }
    processing := {} }

/-- The processing-unit role of a media item (`ProcessUnit`). -/
inductive ProcessUnit where
  | Decoder
  | Encoder
  | Ingest
deriving DecidableEq

/-- The media-item fields read by the fade stage (`Media`).  Timing fields are
rationals standing in for `f64`. -/
structure Media where
  seek : Rat
  out : Rat
  duration : Rat
  duration_audio : Rat
  unit : ProcessUnit
deriving DecidableEq

/-! ## Filter graph state -/

/-- `FilterType` with its `Display` implementation. -/
inductive FilterType where
  | Audio
  | Video
deriving DecidableEq

/-- `Display` of `FilterType`: `a` for audio, `v` for video. -/
def FilterType.tstr : FilterType → Str
  | .Audio => str "a"
  | .Video => str "v"

/-- The hardware-backend name suffixes (`HW_FILTER_POSTFIX` in the source). -/
def HW_FILTER_SUFFIXES : List Str :=
  [str "_cuda", str "_npp", str "_opencl", str "_vaapi", str "_vulkan", str "_qsv"]

/-- The filter graph state (`Filters`). -/
structure Filters where
  hw_context : Bool
  audio_chain : Str
  video_chain : Str
  output_chain : List Str
  audio_map : List Str
  video_map : List Str
  audio_out_link : List Str
  video_out_link : List Str
  output_map : List Str
  config : PlayoutConfig
  audio_position : Int
  video_position : Int
  audio_last : Int
  video_last : Int
deriving DecidableEq

/-- `Filters::new`: fresh state; the hardware flag is derived from the decoder
input parameters once at construction. -/
def Filters.new (config : PlayoutConfig) (audio_position : Int) : Filters :=
  let hw := match config.advanced.decoder.input_param with
    | some i => containsSub i (str "-hw")
    | none => false
  { hw_context := hw
    audio_chain := []
    video_chain := []
    output_chain := []
    audio_map := []
    video_map := []
    audio_out_link := []
    video_out_link := []
    output_map := []
    config := config
    audio_position := audio_position
    video_position := 0
    audio_last := -1
    video_last := -1 }

/-- `is_hw`: the filter text mentions one of the hardware suffixes. -/
def is_hw (filter : Str) : Bool :=
  HW_FILTER_SUFFIXES.any (fun p => containsSub filter p)

/-- `last_is_hw`: split the chain on both separators, trim, and inspect the
last one or two tokens. -/
def last_is_hw (chain : Str) : Bool :=
  let parts := (split_terminator (fun c => c = ',' || c = ';') chain).map trimL
  match parts with
  | [] => false
  | [last] =>
    HW_FILTER_SUFFIXES.any (fun p => containsSub last p) && !containsSub last (str "hwdownload")
  | _ :: _ :: _ =>
    let last := parts.getLastD []
    let second_last := parts.dropLast.getLastD []
    HW_FILTER_SUFFIXES.any (fun p => containsSub last p) &&
      !containsSub last (str "hwdownload") && !containsSub second_last (str "hwdownload")

/-- `hw_download`: bridge from accelerator to host memory. -/
def hw_download (chain f : Str) : Str :=
  if last_is_hw chain && !is_hw f && !(str "null[").isPrefixOf f && !(str "[").isPrefixOf f then
    str "hwdownload"
  else []

/-- `hw_upload_str`: backend-specific upload filter name. -/
def hw_upload_str (config : PlayoutConfig) : Str :=
  match config.advanced.decoder.input_param with
  | some p => if containsSub p (str "cuda") then str "hwupload_cuda" else str "hwupload"
  | none => str "hwupload"

/-- `hw_upload`: bridge from host to accelerator memory. -/
def hw_upload (config : PlayoutConfig) (chain f : Str) : Str :=
  if !last_is_hw chain && is_hw f then hw_upload_str config else []

/-- The chain/label/last-marker computation of `Filters::add_filter` for the
selected half: returns the new chain, the freshly registered output label (if
any), and the new last-track marker. -/
def add_filter_core (config : PlayoutConfig) (hw_context : Bool) (chain : Str)
    (position last : Int) (filter : Str) (track_nr : Int) (filter_type : FilterType) :
    Str × Option Str × Int :=
  if last ≠ track_nr then
    -- start new filter chain
    let selector : Str :=
      if chain = [] then []
      else str "[" ++ filter_type.tstr ++ str "out" ++ intStr last ++ str "]"
    let sep : Str := if chain = [] then [] else str ";"
    let chain := chain ++ selector
    let chain :=
      if (str "aevalsrc").isPrefixOf filter || (str "movie").isPrefixOf filter then
        chain ++ sep ++ filter
      else
        let hw_dl : Str :=
          if hw_context && !is_hw filter && filter_type = FilterType.Video then
            str "hwdownload,format=nv12,"
          else []
        chain ++ sep ++ str "[" ++ intStr position ++ str ":" ++ filter_type.tstr ++ str ":" ++
          intStr track_nr ++ str "]" ++ hw_dl ++ filter
    let m := str "[" ++ filter_type.tstr ++ str "out" ++ intStr track_nr ++ str "]"
    (chain, some m, track_nr)
  else if filter.head? = some ';' || filter.head? = some '[' ||
      (str "movie").isPrefixOf filter || chain.getLast? = some '[' then
    let chain := chain ++ hw_upload config chain filter
    let chain := chain ++ hw_download chain filter
    (chain ++ filter, none, last)
  else if containsSub filter (str "overlay") then
    let chain :=
      if hw_context && !last_is_hw chain then chain ++ str "," ++ hw_upload_str config
      else chain
    (chain ++ str "[l];[v][l]" ++ filter, none, last)
  else
    let hw_ul := hw_upload config chain filter
    let hw_up := hw_download chain filter
    let chain :=
      if hw_ul ≠ [] ∨ hw_up ≠ [] then chain ++ str "," ++ hw_ul ++ hw_up
      else if hw_context && !last_is_hw chain && filter.getLast? = some ';' then
        chain ++ str "," ++ hw_upload_str config
      else chain
    (chain ++ str "," ++ filter, none, last)

/-- `Filters::add_filter`: dispatch on the stream type, update the selected
half's chain and label list, the shared `-map` pair list, and the last-track
marker. -/
def Filters.add_filter (self : Filters) (filter : Str) (track_nr : Int)
    (filter_type : FilterType) : Filters :=
  match filter_type with
  | .Audio =>
    let r := add_filter_core self.config self.hw_context self.audio_chain
      self.audio_position self.audio_last filter track_nr .Audio
    { self with
      audio_chain := r.1
      audio_map := self.audio_map ++ r.2.1.toList
      output_map := self.output_map ++
        (match r.2.1 with | some m => [str "-map", m] | none => [])
      audio_last := r.2.2 }
  | .Video =>
    let r := add_filter_core self.config self.hw_context self.video_chain
      self.video_position self.video_last filter track_nr .Video
    { self with
      video_chain := r.1
      video_map := self.video_map ++ r.2.1.toList
      output_map := self.output_map ++
        (match r.2.1 with | some m => [str "-map", m] | none => [])
      video_last := r.2.2 }

/-- `Filters::cmd`: finalize the graph state to `-filter_complex` arguments. -/
def Filters.cmd (self : Filters) : List Str :=
  if self.output_chain ≠ [] then self.output_chain
  else
    let v_chain :=
      if self.video_last ≥ 0 ∧ ¬self.video_chain.getLast? = some ']' then
        self.video_chain ++ str "[vout" ++ intStr self.video_last ++ str "]"
      else self.video_chain
    let a_chain :=
      if self.audio_last ≥ 0 ∧ ¬self.audio_chain.getLast? = some ']' then
        self.audio_chain ++ str "[aout" ++ intStr self.audio_last ++ str "]"
      else self.audio_chain
    let f_chain :=
      if a_chain ≠ [] then (if v_chain ≠ [] then v_chain ++ str ";" else v_chain) ++ a_chain
      else v_chain
    if f_chain ≠ [] then [str "-filter_complex", f_chain] else []

/-- `Filters::map`: finalize the graph state to `-map` arguments. -/
def Filters.map (self : Filters) : List Str :=
  let o_map := self.output_map
  let o_map :=
    if self.video_last = -1 ∧ ¬self.config.processing.audio_only then
      let v_map := str "0:v"
      if ¬o_map.contains v_map then o_map ++ [str "-map", v_map] else o_map
    else o_map
  if self.audio_last = -1 then
    (List.range self.config.processing.audio_tracks.toNat).foldl
      (fun acc i =>
        let a_map := intStr self.audio_position ++ str ":a:" ++ natStr i
        if ¬acc.contains a_map then acc ++ [str "-map", a_map] else acc)
      o_map
  else o_map

/-! ## Effect stages relevant to the claims -/

/-- `scale`: scale to target dimensions, or append an explicit no-op filter so
the chain is never left bare. -/
def scale (config : PlayoutConfig) (chain : Filters) (width height : Option Int) : Filters :=
  match config.advanced.filter.scale with
  | some sc =>
    chain.add_filter
      (custom_format sc [intStr config.processing.width, intStr config.processing.height])
      0 .Video
  | none =>
    if (width.any fun w => w ≠ config.processing.width) ∨
        (height.any fun w => w ≠ config.processing.height) then
      chain.add_filter
        (str "scale=" ++ intStr config.processing.width ++ str ":" ++
          intStr config.processing.height)
        0 .Video
    else chain.add_filter (str "null") 0 .Video

/-- The fade-in expression chosen by `fade` (default or override template). -/
def fadeInExpr (config : PlayoutConfig) (t : Str) : Str :=
  if t = str "a" then
    match config.advanced.filter.afade_in with
    | some fade => custom_format fade [t]
    | none => t ++ str "fade=in:st=0:d=0.5"
  else
    match config.advanced.filter.fade_in with
    | some fade => custom_format fade [t]
    | none => t ++ str "fade=in:st=0:d=0.5"

/-- The fade-out expression chosen by `fade` (default or override template). -/
def fadeOutExpr (config : PlayoutConfig) (node : Media) (t : Str) : Str :=
  if t = str "a" then
    match config.advanced.filter.afade_out with
    | some fade => custom_format fade [ratStr (node.out - node.seek - 1)]
    | none => t ++ str "fade=out:st=" ++ ratStr (node.out - node.seek - 1) ++ str ":d=1.0"
  else
    match config.advanced.filter.fade_out with
    | some fade => custom_format fade [ratStr (node.out - node.seek - 1)]
    | none => t ++ str "fade=out:st=" ++ ratStr (node.out - node.seek - 1) ++ str ":d=1.0"

/-- `fade`: conditionally append a fade-in and a fade-out filter. -/
def fade (config : PlayoutConfig) (chain : Filters) (node : Media) (nr : Int)
    (filter_type : FilterType) : Filters :=
  let t : Str := if filter_type = FilterType.Audio then str "a" else []
  let fade_audio : Bool :=
    filter_type = FilterType.Audio ∧ node.duration_audio > 0 ∧
      node.duration_audio ≠ node.duration
  let chain :=
    if node.seek > 0 ∨ node.unit = ProcessUnit.Ingest then
      chain.add_filter (fadeInExpr config t) nr filter_type
    else chain
  if (node.out ≠ node.duration ∧ node.out - node.seek > 1) ∨ fade_audio then
    chain.add_filter (fadeOutExpr config node t) nr filter_type
  else chain

/-! ## Output-filter merge (audio splice block)

`process_output_filters` substitutes the built chains into a user-supplied
custom complex-filter string when `(config.text.add_text ∧
¬config.text.text_from_filename) ∨ config.output.mode = HLS` (the merge path).
The video substitution goes through a regular expression; the audio block
(source lines 592-606) splits the audio chain on `;` and indexes the segment
list with every configured audio track index.  That unguarded Rust indexing is
the subject of claim C10 and is modelled here with `Option`: `none` models the
panic. -/

/-- The audio segment list: the audio chain split on `;`, each segment with
its own `[aout<i>]` label erased. -/
def audio_split (audio_chain : Str) : List Str :=
  (splitP (fun c => c = ';') audio_chain).enum.map
    (fun ip => replaceAll ip.2 (str "[aout" ++ natStr ip.1 ++ str "]") [])

/-- The substitution loop `for i in 0..audio_tracks`: fetch segment `i`
(`none` models the out-of-bounds panic) and replace `[0:a:<i>]` in the custom
filter by the segment followed by a comma.  `i` is the next index, `k` the
number of remaining iterations. -/
def spliceLoop (segments : List Str) : Str → Nat → Nat → Option Str
  | cf, _, 0 => some cf
  | cf, i, k + 1 =>
    match segments.get? i with
    | none => none
    | some seg =>
      spliceLoop segments
        (replaceAll cf (str "[0:a:" ++ natStr i ++ str "]") (seg ++ str ","))
        (i + 1) k

/-- The audio splice block of `process_output_filters`, with the unguarded
indexing made explicit: `none` models the panic. -/
def process_output_filters_audio (audio_tracks : Int) (audio_chain cf : Str) : Option Str :=
  if audio_chain ≠ [] then spliceLoop (audio_split audio_chain) cf 0 audio_tracks.toNat
  else some cf

/-! ## Half accessors and claim-side vocabulary -/

/-- The chain of the half selected by a stream type. -/
def chainOf : FilterType → Filters → Str
  | .Audio, st => st.audio_chain
  | .Video, st => st.video_chain

/-- The label list of the half selected by a stream type. -/
def mapOf : FilterType → Filters → List Str
  | .Audio, st => st.audio_map
  | .Video, st => st.video_map

/-- The last-track marker of the half selected by a stream type. -/
def lastOf : FilterType → Filters → Int
  | .Audio, st => st.audio_last
  | .Video, st => st.video_last

/-- The input-stream position of the half selected by a stream type. -/
def posOf : FilterType → Filters → Int
  | .Audio, st => st.audio_position
  | .Video, st => st.video_position

/-- The output label `[<type>out<nr>]` of a track. -/
def outLabel (t : FilterType) (nr : Int) : Str :=
  str "[" ++ t.tstr ++ str "out" ++ intStr nr ++ str "]"

/-- Source-generator detection: the fixed name-prefix set of the code. -/
def isGenerator (f : Str) : Bool :=
  (str "aevalsrc").isPrefixOf f || (str "movie").isPrefixOf f

/-- The implicit input selector `[<position>:<type>:<track_number>]`. -/
def inputSelector (pos : Int) (t : FilterType) (nr : Int) : Str :=
  str "[" ++ intStr pos ++ str ":" ++ t.tstr ++ str ":" ++ intStr nr ++ str "]"

/-- The hardware-download bridge inserted on a track transition: present
exactly when the hardware context is active, the filter is not
hardware-tagged, and the stream type is video. -/
def hwDlBridge (hw : Bool) (f : Str) (t : FilterType) : Str :=
  if hw && !is_hw f && t = FilterType.Video then str "hwdownload,format=nv12," else []

/-! ## Projection lemmas for `add_filter` -/

theorem chainOf_add_filter (st : Filters) (f : Str) (nr : Int) (t : FilterType) :
    chainOf t (st.add_filter f nr t) =
      (add_filter_core st.config st.hw_context (chainOf t st) (posOf t st) (lastOf t st)
        f nr t).1 := by
  cases t <;> rfl

theorem mapOf_add_filter (st : Filters) (f : Str) (nr : Int) (t : FilterType) :
    mapOf t (st.add_filter f nr t) =
      mapOf t st ++
        (add_filter_core st.config st.hw_context (chainOf t st) (posOf t st) (lastOf t st)
          f nr t).2.1.toList := by
  cases t <;> rfl

theorem lastOf_add_filter (st : Filters) (f : Str) (nr : Int) (t : FilterType) :
    lastOf t (st.add_filter f nr t) =
      (add_filter_core st.config st.hw_context (chainOf t st) (posOf t st) (lastOf t st)
        f nr t).2.2 := by
  cases t <;> rfl

theorem output_map_add_filter (st : Filters) (f : Str) (nr : Int) (t : FilterType) :
    (st.add_filter f nr t).output_map =
      st.output_map ++
        (match (add_filter_core st.config st.hw_context (chainOf t st) (posOf t st)
            (lastOf t st) f nr t).2.1 with
          | some m => [str "-map", m]
          | none => []) := by
  cases t <;> rfl

/-- The half not selected by `add_filter` is untouched. -/
theorem chainOf_add_filter_other (st : Filters) (f : Str) (nr : Int) {t t' : FilterType}
    (h : t' ≠ t) : chainOf t' (st.add_filter f nr t) = chainOf t' st := by
  cases t <;> cases t' <;> first | exact absurd rfl h | rfl

theorem mapOf_add_filter_other (st : Filters) (f : Str) (nr : Int) {t t' : FilterType}
    (h : t' ≠ t) : mapOf t' (st.add_filter f nr t) = mapOf t' st := by
  cases t <;> cases t' <;> first | exact absurd rfl h | rfl

theorem lastOf_add_filter_other (st : Filters) (f : Str) (nr : Int) {t t' : FilterType}
    (h : t' ≠ t) : lastOf t' (st.add_filter f nr t) = lastOf t' st := by
  cases t <;> cases t' <;> first | exact absurd rfl h | rfl

/-- On a track transition the core produces: close the previous chain (label
plus `;`) when non-empty, then either the generator filter verbatim or the
input selector, the conditional download bridge and the filter; the track's
output label is registered and the marker moves to the new track. -/
theorem add_filter_core_transition (cfg : PlayoutConfig) (hw : Bool) (chain : Str)
    (pos last : Int) (f : Str) (nr : Int) (t : FilterType) (h : last ≠ nr) :
    add_filter_core cfg hw chain pos last f nr t =
      (chain ++ (if chain = [] then [] else outLabel t last ++ str ";") ++
        (if isGenerator f then f else inputSelector pos t nr ++ hwDlBridge hw f t ++ f),
       some (outLabel t nr), nr) := by
  rw [add_filter_core, if_pos h]
  by_cases hc : chain = [] <;>
    by_cases hg : (str "aevalsrc" <+: f ∨ str "movie" <+: f) <;>
      simp [hc, hg, outLabel, isGenerator, inputSelector, hwDlBridge, List.append_assoc]

/-- Claim C9: `add_filter` for one stream type leaves the other half's chain,
label list, last-track marker and out-links unchanged, and never touches the
hardware-context flag, the positions, the override output chain, the
out-links or the configuration. -/
theorem add_filter_frame (st : Filters) (f : Str) (nr : Int) :
    ((st.add_filter f nr .Audio).video_chain = st.video_chain ∧
      (st.add_filter f nr .Audio).video_map = st.video_map ∧
      (st.add_filter f nr .Audio).video_last = st.video_last ∧
      (st.add_filter f nr .Audio).video_position = st.video_position) ∧
    ((st.add_filter f nr .Video).audio_chain = st.audio_chain ∧
      (st.add_filter f nr .Video).audio_map = st.audio_map ∧
      (st.add_filter f nr .Video).audio_last = st.audio_last ∧
      (st.add_filter f nr .Video).audio_position = st.audio_position) ∧
    (∀ t : FilterType,
      (st.add_filter f nr t).hw_context = st.hw_context ∧
      (st.add_filter f nr t).config = st.config ∧
      (st.add_filter f nr t).audio_position = st.audio_position ∧
      (st.add_filter f nr t).video_position = st.video_position ∧
      (st.add_filter f nr t).output_chain = st.output_chain ∧
      (st.add_filter f nr t).audio_out_link = st.audio_out_link ∧
      (st.add_filter f nr t).video_out_link = st.video_out_link) := by
  refine ⟨⟨rfl, rfl, rfl, rfl⟩, ⟨rfl, rfl, rfl, rfl⟩, fun t => ?_⟩
  cases t <;> exact ⟨rfl, rfl, rfl, rfl, rfl, rfl, rfl⟩

/-- Claim C1: on a track transition (`lastOf t st ≠ nr`), `add_filter` closes
a non-empty chain with `[<type>out<last>];`, appends a source-generator
filter as-is and any other filter behind the implicit input selector with the
hardware-download bridge inserted exactly when the hardware context is
active, the filter is not hardware-tagged and the stream type is video, then
registers the new output label in the half's label list and the `-map` pair
list and moves the last-track marker to the track number. -/
theorem add_filter_transition (st : Filters) (f : Str) (nr : Int) (t : FilterType)
    (h : lastOf t st ≠ nr) :
    chainOf t (st.add_filter f nr t) =
        chainOf t st ++
          (if chainOf t st = [] then [] else outLabel t (lastOf t st) ++ str ";") ++
          (if isGenerator f then f
            else inputSelector (posOf t st) t nr ++ hwDlBridge st.hw_context f t ++ f) ∧
      mapOf t (st.add_filter f nr t) = mapOf t st ++ [outLabel t nr] ∧
      (st.add_filter f nr t).output_map = st.output_map ++ [str "-map", outLabel t nr] ∧
      lastOf t (st.add_filter f nr t) = nr := by
  refine ⟨?_, ?_, ?_, ?_⟩
  · rw [chainOf_add_filter, add_filter_core_transition _ _ _ _ _ _ _ _ h]
  · rw [mapOf_add_filter, add_filter_core_transition _ _ _ _ _ _ _ _ h]
    rfl
  · rw [output_map_add_filter, add_filter_core_transition _ _ _ _ _ _ _ _ h]
  · rw [lastOf_add_filter, add_filter_core_transition _ _ _ _ _ _ _ _ h]

/-- On a same-track append the core registers no label and keeps the
last-track marker. -/
theorem add_filter_core_same (cfg : PlayoutConfig) (hw : Bool) (chain : Str)
    (pos last : Int) (f : Str) (nr : Int) (t : FilterType) (h : last = nr) :
    (add_filter_core cfg hw chain pos last f nr t).2.1 = none ∧
      (add_filter_core cfg hw chain pos last f nr t).2.2 = last := by
  rw [add_filter_core, if_neg (by omega : ¬last ≠ nr)]
  constructor <;> (split <;> first | rfl | (split <;> rfl))

/-- `add_filter` always leaves the selected half's marker at the track
number. -/
theorem lastOf_add_filter_self (st : Filters) (f : Str) (nr : Int) (t : FilterType) :
    lastOf t (st.add_filter f nr t) = nr := by
  rw [lastOf_add_filter]
  by_cases h : lastOf t st = nr
  · rw [(add_filter_core_same _ _ _ _ _ _ _ _ h).2, h]
  · rw [add_filter_core_transition _ _ _ _ _ _ _ _ h]

/-- A same-track append changes neither the label list nor the map list. -/
theorem add_filter_same_maps (st : Filters) (f : Str) (nr : Int) (t : FilterType)
    (h : lastOf t st = nr) :
    mapOf t (st.add_filter f nr t) = mapOf t st ∧
      (st.add_filter f nr t).output_map = st.output_map := by
  obtain ⟨h1, -⟩ := add_filter_core_same st.config st.hw_context (chainOf t st)
    (posOf t st) (lastOf t st) f nr t h
  constructor
  · rw [mapOf_add_filter, h1]; simp
  · rw [output_map_add_filter, h1]; simp

/-- Witness for C1 at a concrete input: a first video append on a fresh state
(marker `-1`, track `0`). -/
theorem add_filter_transition_witness :
    chainOf .Video ((Filters.new cfg0 0).add_filter (str "scale=1:1") 0 .Video) =
        chainOf .Video (Filters.new cfg0 0) ++
          (if chainOf .Video (Filters.new cfg0 0) = [] then []
            else outLabel .Video (lastOf .Video (Filters.new cfg0 0)) ++ str ";") ++
          (if isGenerator (str "scale=1:1") then str "scale=1:1"
            else inputSelector (posOf .Video (Filters.new cfg0 0)) .Video 0 ++
              hwDlBridge (Filters.new cfg0 0).hw_context (str "scale=1:1") .Video ++
              str "scale=1:1") ∧
      mapOf .Video ((Filters.new cfg0 0).add_filter (str "scale=1:1") 0 .Video) =
        mapOf .Video (Filters.new cfg0 0) ++ [outLabel .Video 0] ∧
      ((Filters.new cfg0 0).add_filter (str "scale=1:1") 0 .Video).output_map =
        (Filters.new cfg0 0).output_map ++ [str "-map", outLabel .Video 0] ∧
      lastOf .Video ((Filters.new cfg0 0).add_filter (str "scale=1:1") 0 .Video) = 0 :=
  add_filter_transition (Filters.new cfg0 0) (str "scale=1:1") 0 .Video (by decide)

/-- Label and map effects of a transition append (internal helper). -/
theorem add_filter_trans_effects (st : Filters) (f : Str) (nr : Int) (t : FilterType)
    (h : lastOf t st ≠ nr) :
    mapOf t (st.add_filter f nr t) = mapOf t st ++ [outLabel t nr] ∧
      (st.add_filter f nr t).output_map = st.output_map ++ [str "-map", outLabel t nr] := by
  constructor
  · rw [mapOf_add_filter, add_filter_core_transition _ _ _ _ _ _ _ _ h]
    rfl
  · rw [output_map_add_filter, add_filter_core_transition _ _ _ _ _ _ _ _ h]

/-! ## Sequences of appends -/

/-- An `add_filter` call: filter expression, track number, stream type. -/
abbrev Call := Str × Int × FilterType

/-- Run a sequence of `add_filter` calls. -/
def runFilters (st : Filters) (calls : List Call) : Filters :=
  calls.foldl (fun s c => s.add_filter c.1 c.2.1 c.2.2) st

/-- The track numbers a call sequence sends to one half, in order. -/
def tracksOf (t : FilterType) (calls : List Call) : List Int :=
  calls.filterMap (fun c => if c.2.2 = t then some c.2.1 else none)

/-- The number of track transitions a track-number sequence causes, starting
from a given last-track marker. -/
def transCount : Int → List Int → Nat
  | _, [] => 0
  | last, n :: rest => if n ≠ last then transCount n rest + 1 else transCount last rest

theorem mapOf_runFilters_length (t : FilterType) :
    ∀ (calls : List Call) (st : Filters),
      (mapOf t (runFilters st calls)).length =
        (mapOf t st).length + transCount (lastOf t st) (tracksOf t calls)
  | [], st => by simp [runFilters, tracksOf, transCount]
  | c :: cs, st => by
    have step : runFilters st (c :: cs) = runFilters (st.add_filter c.1 c.2.1 c.2.2) cs := rfl
    rw [step]
    by_cases ht : c.2.2 = t
    · subst ht
      have htr : tracksOf c.2.2 (c :: cs) = c.2.1 :: tracksOf c.2.2 cs := by
        simp [tracksOf, List.filterMap_cons]
      rw [mapOf_runFilters_length c.2.2 cs, htr, lastOf_add_filter_self]
      by_cases h : lastOf c.2.2 st = c.2.1
      · rw [(add_filter_same_maps st c.1 c.2.1 c.2.2 h).1, transCount, if_neg (by omega), h]
      · rw [(add_filter_trans_effects st c.1 c.2.1 c.2.2 h).1, transCount, if_pos (by omega)]
        simp
        omega
    · have htr : tracksOf t (c :: cs) = tracksOf t cs := by
        simp [tracksOf, List.filterMap_cons, ht]
      rw [mapOf_runFilters_length t cs, htr,
        mapOf_add_filter_other st c.1 c.2.1 (fun hh => ht hh.symm),
        lastOf_add_filter_other st c.1 c.2.1 (fun hh => ht hh.symm)]

theorem output_map_runFilters_length :
    ∀ (calls : List Call) (st : Filters),
      (runFilters st calls).output_map.length =
        st.output_map.length +
          2 * (transCount (lastOf .Video st) (tracksOf .Video calls) +
            transCount (lastOf .Audio st) (tracksOf .Audio calls))
  | [], st => by simp [runFilters, tracksOf, transCount]
  | c :: cs, st => by
    have step : runFilters st (c :: cs) = runFilters (st.add_filter c.1 c.2.1 c.2.2) cs := rfl
    rw [step, output_map_runFilters_length cs]
    obtain ⟨f, nr, t⟩ := c
    have hsame : ∀ t', t' ≠ t → tracksOf t' ((f, nr, t) :: cs) = tracksOf t' cs := by
      intro t' h
      have hne : ¬t = t' := fun hh => h hh.symm
      simp [tracksOf, List.filterMap_cons, hne]
    have hcons : tracksOf t ((f, nr, t) :: cs) = nr :: tracksOf t cs := by
      simp [tracksOf, List.filterMap_cons]
    by_cases h : lastOf t st = nr
    · have hout := (add_filter_same_maps st f nr t h).2
      cases t
      · rw [hcons, hsame .Video (by simp), hout, lastOf_add_filter_self,
          lastOf_add_filter_other st f nr (by simp), transCount, if_neg (by omega), h]
      · rw [hcons, hsame .Audio (by simp), hout, lastOf_add_filter_self,
          lastOf_add_filter_other st f nr (by simp), transCount, if_neg (by omega), h]
    · have hout := (add_filter_trans_effects st f nr t h).2
      have hlen : (st.add_filter f nr t).output_map.length = st.output_map.length + 2 := by
        rw [hout]; simp
      cases t
      · rw [hcons, hsame .Video (by simp), hlen, lastOf_add_filter_self,
          lastOf_add_filter_other st f nr (by simp), transCount, if_pos (by omega)]
        ring
      · rw [hcons, hsame .Audio (by simp), hlen, lastOf_add_filter_self,
          lastOf_add_filter_other st f nr (by simp), transCount, if_pos (by omega)]
        ring

/-- Claim C2 (amended): the first `add_filter` call for a track (marker
differs) adds exactly one label and one `-map` pair, a same-track call adds
neither, and over any call sequence from a fresh state the number of labels
on a half equals the number of track transitions on that half (so a track
whose appends form a single contiguous run has exactly one label and one
`-map` pair, while a revisited track gains one per revisit). -/
theorem add_filter_label_count :
    (∀ (st : Filters) (f : Str) (nr : Int) (t : FilterType), lastOf t st ≠ nr →
        (mapOf t (st.add_filter f nr t)).length = (mapOf t st).length + 1 ∧
        (st.add_filter f nr t).output_map.length = st.output_map.length + 2) ∧
    (∀ (st : Filters) (f : Str) (nr : Int) (t : FilterType), lastOf t st = nr →
        mapOf t (st.add_filter f nr t) = mapOf t st ∧
        (st.add_filter f nr t).output_map = st.output_map) ∧
    (∀ (cfg : PlayoutConfig) (apos : Int) (calls : List Call),
        (mapOf .Video (runFilters (Filters.new cfg apos) calls)).length =
          transCount (-1) (tracksOf .Video calls) ∧
        (mapOf .Audio (runFilters (Filters.new cfg apos) calls)).length =
          transCount (-1) (tracksOf .Audio calls) ∧
        (runFilters (Filters.new cfg apos) calls).output_map.length =
          2 * (transCount (-1) (tracksOf .Video calls) +
            transCount (-1) (tracksOf .Audio calls))) := by
  refine ⟨fun st f nr t h => ?_, fun st f nr t h => add_filter_same_maps st f nr t h,
    fun cfg apos calls => ⟨?_, ?_, ?_⟩⟩
  · obtain ⟨hm, ho⟩ := add_filter_trans_effects st f nr t h
    constructor
    · rw [hm]; simp
    · rw [ho]; simp
  · rw [mapOf_runFilters_length]; simp [mapOf, lastOf, Filters.new]
  · rw [mapOf_runFilters_length]; simp [mapOf, lastOf, Filters.new]
  · rw [output_map_runFilters_length]; simp [lastOf, Filters.new]

/-- Witness for C2: a first audio append on a fresh state adds one label and
one `-map` pair. -/
theorem add_filter_label_count_witness :
    (mapOf .Audio ((Filters.new cfg0 0).add_filter (str "anull") 0 .Audio)).length =
        (mapOf .Audio (Filters.new cfg0 0)).length + 1 ∧
      ((Filters.new cfg0 0).add_filter (str "anull") 0 .Audio).output_map.length =
        (Filters.new cfg0 0).output_map.length + 2 :=
  add_filter_label_count.1 (Filters.new cfg0 0) (str "anull") 0 .Audio (by decide)

/-- Counterexample for C2 as stated: the call sequence track 2, track 0,
track 2 (all video) registers two `[vout2]` labels and two `-map` pairs for
track 2, so a track that receives at least one filter need not end with
exactly one registered output label. -/
theorem add_filter_label_count_cex :
    List.count (str "[vout2]")
        (runFilters (Filters.new cfg0 0)
          [(str "a", 2, .Video), (str "b", 0, .Video), (str "c", 2, .Video)]).video_map = 2 ∧
      List.count (str "[vout2]")
        (runFilters (Filters.new cfg0 0)
          [(str "a", 2, .Video), (str "b", 0, .Video), (str "c", 2, .Video)]).output_map = 2 := by
  decide

/-! ## Finalization claims -/

/-- Claim-side rendering of finalize-to-command: a full override chain is
returned verbatim; otherwise each half whose chain is non-empty and does not
already end in a closing label gets its output label (built from the current
last-track marker) appended, the non-empty halves are joined with `;`, and
the two-element argument list is produced only for a non-empty joined
string. -/
def cmd_spec (self : Filters) : List Str :=
  if self.output_chain ≠ [] then self.output_chain
  else
    let v_chain :=
      if self.video_chain ≠ [] ∧ ¬self.video_chain.getLast? = some ']' then
        self.video_chain ++ outLabel .Video self.video_last
      else self.video_chain
    let a_chain :=
      if self.audio_chain ≠ [] ∧ ¬self.audio_chain.getLast? = some ']' then
        self.audio_chain ++ outLabel .Audio self.audio_last
      else self.audio_chain
    let joined :=
      if a_chain ≠ [] then (if v_chain ≠ [] then v_chain ++ str ";" else v_chain) ++ a_chain
      else v_chain
    if joined ≠ [] then [str "-filter_complex", joined] else []

/-- Claim C4: on states where a half's last-track marker is set exactly when
its chain is non-empty (the invariant every reachable state of the stage
pipeline satisfies), `cmd` returns exactly the claim's finalize-to-command
result; and on a fresh state where no stage ever appended a filter and no
override is set it returns no arguments. -/
theorem cmd_characterization :
    (∀ self : Filters,
        (self.video_last ≥ 0 ↔ self.video_chain ≠ []) →
        (self.audio_last ≥ 0 ↔ self.audio_chain ≠ []) →
        self.cmd = cmd_spec self) ∧
    (∀ (cfg : PlayoutConfig) (apos : Int), (Filters.new cfg apos).cmd = []) := by
  constructor
  · intro self hv ha
    have hvc :
        (if self.video_last ≥ 0 ∧ ¬self.video_chain.getLast? = some ']' then
          self.video_chain ++ str "[vout" ++ intStr self.video_last ++ str "]"
        else self.video_chain) =
        (if self.video_chain ≠ [] ∧ ¬self.video_chain.getLast? = some ']' then
          self.video_chain ++ outLabel .Video self.video_last
        else self.video_chain) :=
      if_congr (and_congr_left' hv) (by simp [outLabel, FilterType.tstr, str]) rfl
    have hac :
        (if self.audio_last ≥ 0 ∧ ¬self.audio_chain.getLast? = some ']' then
          self.audio_chain ++ str "[aout" ++ intStr self.audio_last ++ str "]"
        else self.audio_chain) =
        (if self.audio_chain ≠ [] ∧ ¬self.audio_chain.getLast? = some ']' then
          self.audio_chain ++ outLabel .Audio self.audio_last
        else self.audio_chain) :=
      if_congr (and_congr_left' ha) (by simp [outLabel, FilterType.tstr, str]) rfl
    unfold Filters.cmd cmd_spec
    rw [hvc, hac]
  · intro cfg apos
    simp [Filters.cmd, Filters.new]

/-- Witness for C4: the fresh state satisfies both invariant hypotheses and
produces no arguments. -/
theorem cmd_characterization_witness :
    (Filters.new cfg0 0).cmd = cmd_spec (Filters.new cfg0 0) :=
  cmd_characterization.1 (Filters.new cfg0 0) (by decide) (by decide)

/-- Claim-side rendering of finalize-to-map: the accumulated pairs, then the
default raw-video map exactly when the video half was never touched, the item
is not audio-only and the selector is absent, then, when the audio half was
never touched, a default audio map per configured track index relative to the
audio input position, skipping selectors already present. -/
def map_spec (self : Filters) : List Str :=
  let base :=
    if self.video_last = -1 ∧ ¬self.config.processing.audio_only ∧
        ¬self.output_map.contains (str "0:v") then
      self.output_map ++ [str "-map", str "0:v"]
    else self.output_map
  if self.audio_last = -1 then
    (List.range self.config.processing.audio_tracks.toNat).foldl
      (fun acc i =>
        let a_map := intStr self.audio_position ++ str ":a:" ++ natStr i
        if ¬acc.contains a_map then acc ++ [str "-map", a_map] else acc)
      base
  else base

/-- Claim C5: `map` returns exactly the claim's finalize-to-map result. -/
theorem map_characterization (self : Filters) : self.map = map_spec self := by
  unfold Filters.map map_spec
  by_cases h1 : self.video_last = -1 <;>
    by_cases h2 : self.config.processing.audio_only <;>
      by_cases h3 : self.output_map.contains (str "0:v") <;>
        simp [h1, h2, h3]

/-! ## Hardware bridge claims -/

/-- A non-empty list prefixed by a non-empty pattern is non-empty. -/
theorem ne_nil_of_isPrefixOf {p f : Str} (h : p.isPrefixOf f = true) (hp : p ≠ []) :
    f ≠ [] := by
  intro hf
  subst hf
  cases p with
  | nil => exact hp rfl
  | cons a as => simp [List.isPrefixOf] at h

/-- Claim C6: the download bridge fires (yielding the non-empty download
filter name) exactly when the chain currently ends hardware, the incoming
filter is not hardware, and the incoming filter is neither a label reference
nor the no-op passthrough; the upload bridge fires exactly when the chain
does not end hardware and the incoming filter is hardware, yielding the
CUDA-specific name when the decoder parameters mention that backend and the
generic name otherwise; consequently neither bridge is ever redundant. -/
theorem hw_bridge_characterization :
    (∀ chain f : Str,
        (hw_download chain f ≠ [] ↔
          last_is_hw chain = true ∧ is_hw f = false ∧
            (str "null[").isPrefixOf f = false ∧ (str "[").isPrefixOf f = false) ∧
        (hw_download chain f = [] ∨ hw_download chain f = str "hwdownload")) ∧
    (∀ (cfg : PlayoutConfig) (chain f : Str),
        (hw_upload cfg chain f ≠ [] ↔ last_is_hw chain = false ∧ is_hw f = true) ∧
        (hw_upload cfg chain f = [] ∨ hw_upload cfg chain f = hw_upload_str cfg)) ∧
    (∀ cfg : PlayoutConfig,
        hw_upload_str cfg =
          if (cfg.advanced.decoder.input_param.any fun p => containsSub p (str "cuda")) then
            str "hwupload_cuda"
          else str "hwupload") ∧
    (∀ (cfg : PlayoutConfig) (chain f : Str),
        (last_is_hw chain = true → hw_upload cfg chain f = []) ∧
        (last_is_hw chain = false → hw_download chain f = [])) := by
  have hstr : ∀ cfg : PlayoutConfig, hw_upload_str cfg ≠ [] := by
    intro cfg
    unfold hw_upload_str
    cases cfg.advanced.decoder.input_param with
    | none => decide
    | some p =>
      dsimp only
      split_ifs <;> decide
  refine ⟨fun chain f => ⟨?_, ?_⟩, fun cfg chain f => ⟨?_, ?_⟩, fun cfg => ?_,
    fun cfg chain f => ⟨?_, ?_⟩⟩
  · unfold hw_download
    split_ifs with h
    · refine iff_of_true (by decide) ?_
      simp only [Bool.and_eq_true, Bool.not_eq_true'] at h
      tauto
    · refine iff_of_false (by simp) ?_
      simp only [Bool.and_eq_true, Bool.not_eq_true', not_and] at h
      tauto
  · unfold hw_download
    split_ifs <;> simp
  · unfold hw_upload
    split_ifs with h
    · refine iff_of_true (hstr cfg) ?_
      simp only [Bool.and_eq_true, Bool.not_eq_true'] at h
      tauto
    · refine iff_of_false (by simp) ?_
      simp only [Bool.and_eq_true, Bool.not_eq_true', not_and] at h
      tauto
  · unfold hw_upload
    split_ifs <;> simp
  · unfold hw_upload_str
    cases cfg.advanced.decoder.input_param <;> simp
  · intro h
    unfold hw_upload
    simp [h]
  · intro h
    unfold hw_download
    simp [h]

/-- Witness for C6: a chain ending in a hardware-tagged filter never receives
an upload bridge. -/
theorem hw_bridge_characterization_witness :
    hw_upload cfg0 (str "scale_cuda") (str "null") = [] :=
  (hw_bridge_characterization.2.2.2 cfg0 (str "scale_cuda") (str "null")).1 (by decide)

/-! ## Scale stage claim -/

/-- Appending to a non-empty list keeps it non-empty. -/
theorem append_ne_nil_left {a : Str} (ha : a ≠ []) (b : Str) : a ++ b ≠ [] := by
  simp [ha]

/-- Appending a non-empty list keeps the result non-empty. -/
theorem append_ne_nil_right (a : Str) {b : Str} (hb : b ≠ []) : a ++ b ≠ [] := by
  simp [hb]

/-- The first component of the core is never empty: a transition writes at
least a selector or a generator filter, and every same-track branch appends
to an already non-empty chain or appends non-empty text. -/
theorem add_filter_core_fst_ne_nil (cfg : PlayoutConfig) (hw : Bool) (chain : Str)
    (pos last : Int) (f : Str) (nr : Int) (t : FilterType) :
    (add_filter_core cfg hw chain pos last f nr t).1 ≠ [] := by
  by_cases h : last ≠ nr
  · rw [add_filter_core_transition cfg hw chain pos last f nr t h]
    by_cases hc : chain = []
    · by_cases hg : isGenerator f = true
      · have hf : f ≠ [] := by
          rcases Bool.or_eq_true _ _ |>.mp hg with h' | h'
          · exact ne_nil_of_isPrefixOf h' (by decide)
          · exact ne_nil_of_isPrefixOf h' (by decide)
        simp [hc, hg, hf]
      · simp [hc, hg, inputSelector, str]
    · simp [hc]
  · rw [add_filter_core, if_neg h]
    split_ifs with h1
    · simp only [Bool.or_eq_true, decide_eq_true_eq, List.isPrefixOf_iff_prefix] at h1
      have i1 : f.head? = some ';' → f ≠ [] := by intro hh hf; subst hf; simp at hh
      have i2 : f.head? = some '[' → f ≠ [] := by intro hh hf; subst hf; simp at hh
      have i3 : str "movie" <+: f → f ≠ [] := fun hh =>
        ne_nil_of_isPrefixOf (List.isPrefixOf_iff_prefix.mpr hh) (by decide)
      have i4 : chain.getLast? = some '[' → chain ≠ [] := by
        intro hh hc; subst hc; simp at hh
      have hne : chain ≠ [] ∨ f ≠ [] := by tauto
      dsimp only
      rcases hne with h' | h'
      · exact append_ne_nil_left (append_ne_nil_left (append_ne_nil_left h' _) _) _
      · exact append_ne_nil_right _ h'
    all_goals
      dsimp only
      exact append_ne_nil_left (append_ne_nil_right _ (by decide)) _

/-- `add_filter` on the video half always leaves a non-empty video chain. -/
theorem video_chain_add_filter_ne_nil (st : Filters) (f : Str) (nr : Int) :
    (st.add_filter f nr .Video).video_chain ≠ [] :=
  add_filter_core_fst_ne_nil st.config st.hw_context st.video_chain st.video_position
    st.video_last f nr .Video

/-- Claim C8: the scale stage appends the override scale filter when a
template is set, the standard scale filter when a probed dimension differs
from the target, and the explicit no-op filter otherwise; in every case the
video chain ends up non-empty. -/
theorem scale_characterization (cfg : PlayoutConfig) (st : Filters) (w h : Option Int) :
    (scale cfg st w h =
      match cfg.advanced.filter.scale with
      | some sc =>
        st.add_filter
          (custom_format sc [intStr cfg.processing.width, intStr cfg.processing.height]) 0 .Video
      | none =>
        if (w.any fun x => x ≠ cfg.processing.width) ∨
            (h.any fun x => x ≠ cfg.processing.height) then
          st.add_filter
            (str "scale=" ++ intStr cfg.processing.width ++ str ":" ++
              intStr cfg.processing.height) 0 .Video
        else st.add_filter (str "null") 0 .Video) ∧
    (scale cfg st w h).video_chain ≠ [] := by
  constructor
  · rfl
  · unfold scale
    cases cfg.advanced.filter.scale with
    | some sc => exact video_chain_add_filter_ne_nil st _ 0
    | none =>
      split_ifs <;> exact video_chain_add_filter_ne_nil st _ 0

/-! ## Fade stage claim -/

/-- The fade-in trigger: seek offset positive or live-ingest role. -/
abbrev fadeInCond (node : Media) : Prop :=
  node.seek > 0 ∨ node.unit = ProcessUnit.Ingest

/-- The fade-out trigger as the code implements it: the out point differs
from the total duration and the remaining span exceeds one second, or (audio
only) the probed audio duration is positive and differs from the video
duration. -/
abbrev fadeOutCond (ft : FilterType) (node : Media) : Prop :=
  (node.out ≠ node.duration ∧ node.out - node.seek > 1) ∨
    (ft = FilterType.Audio ∧ node.duration_audio > 0 ∧
      node.duration_audio ≠ node.duration)

/-- An item seeking 2 seconds into a file (out point equals duration). -/
def mediaSeek2 : Media :=
  { seek := 2, out := 10, duration := 10, duration_audio := 0, unit := .Decoder }

/-- The identical item with seek 0 and the file-playback role. -/
def mediaSeek0 : Media :=
  { seek := 0, out := 10, duration := 10, duration_audio := 0, unit := .Decoder }

/-- Claim C7 (amended): the fade stage appends the fade-in filter exactly
under `fadeInCond` and the fade-out filter exactly under `fadeOutCond`; the
item with seek 2.0 receives a fade-in in the video chain and the identical
item with seek 0 and file-playback role receives nothing. -/
theorem fade_characterization :
    (∀ (cfg : PlayoutConfig) (st : Filters) (node : Media) (nr : Int) (ft : FilterType),
      fade cfg st node nr ft =
        (let t : Str := if ft = FilterType.Audio then str "a" else []
         let st1 := if fadeInCond node then st.add_filter (fadeInExpr cfg t) nr ft else st
         if fadeOutCond ft node then st1.add_filter (fadeOutExpr cfg node t) nr ft else st1)) ∧
    containsSub (fade cfg0 (Filters.new cfg0 0) mediaSeek2 0 .Video).video_chain
      (str "fade=in") = true ∧
    fade cfg0 (Filters.new cfg0 0) mediaSeek0 0 .Video = Filters.new cfg0 0 := by
  refine ⟨fun cfg st node nr ft => ?_, by decide, by decide⟩
  unfold fade
  by_cases h1 : fadeInCond node <;> by_cases h2 : fadeOutCond ft node <;>
    simp_all [fadeInCond, fadeOutCond]

/-- Counterexample for C7 as stated: for this item the remaining span
`out - seek` exceeds one second, yet the fade stage appends nothing (the out
point equals the total duration), so "fade-out iff remaining span exceeds one
second" fails on the code. -/
theorem fade_characterization_cex :
    mediaSeek0.out - mediaSeek0.seek > 1 ∧
      fade cfg0 (Filters.new cfg0 0) mediaSeek0 0 .Video = Filters.new cfg0 0 := by
  constructor
  · simp only [mediaSeek0]
    norm_num
  · decide

/-! ## Output-filter merge claim -/

/-- The splice loop fails exactly when it runs past the end of the segment
list. -/
theorem spliceLoop_eq_none_iff (segments : List Str) :
    ∀ (k i : Nat) (cf : Str),
      (spliceLoop segments cf i k = none ↔ 1 ≤ k ∧ segments.length < i + k)
  | 0, i, cf => by simp [spliceLoop]
  | k + 1, i, cf => by
    rw [spliceLoop]
    cases hg : segments.get? i with
    | none =>
      have hle : segments.length ≤ i := by simpa using List.get?_eq_none.mp hg
      simp only [hg]
      simp
      omega
    | some seg =>
      have : i < segments.length := List.get?_eq_some.mp hg |>.choose
      simp only [hg]
      rw [spliceLoop_eq_none_iff segments k (i + 1)]
      constructor
      · rintro ⟨hk, hlen⟩
        exact ⟨by omega, by omega⟩
      · rintro ⟨-, hlen⟩
        have hk : 1 ≤ k := by omega
        exact ⟨hk, by omega⟩

/-- Splitting never produces an empty segment list. -/
theorem splitP_ne_nil (p : Char → Bool) : ∀ l : Str, splitP p l ≠ []
  | [] => by simp [splitP]
  | c :: r => by
    rw [splitP]
    split_ifs
    · simp
    · cases h : splitP p r with
      | nil => simp
      | cons s ss => simp

/-- The audio segment list has one entry per `;`-segment of the chain. -/
theorem audio_split_length (audio_chain : Str) :
    (audio_split audio_chain).length = (splitP (fun c => c = ';') audio_chain).length := by
  simp [audio_split]

/-- Claim C10: the audio splice block indexes segment `i` for every
configured track index `i`, so it fails (the modelled panic) exactly when the
audio chain is non-empty and the configured audio track count exceeds the
number of `;`-separated segments of the audio chain; in particular two
configured tracks over the single-segment chain `anull` panic. -/
theorem process_output_filters_audio_panic :
    (∀ (audio_tracks : Int) (audio_chain cf : Str),
      process_output_filters_audio audio_tracks audio_chain cf = none ↔
        audio_chain ≠ [] ∧
          ((splitP (fun c => c = ';') audio_chain).length : Int) < audio_tracks) ∧
    process_output_filters_audio 2 (str "anull") (str "[0:a:0]x") = none := by
  have main : ∀ (audio_tracks : Int) (audio_chain cf : Str),
      process_output_filters_audio audio_tracks audio_chain cf = none ↔
        audio_chain ≠ [] ∧
          ((splitP (fun c => c = ';') audio_chain).length : Int) < audio_tracks := by
    intro n ch cf
    unfold process_output_filters_audio
    by_cases hc : ch ≠ []
    · rw [if_pos hc, spliceLoop_eq_none_iff]
      have h1 : 1 ≤ (splitP (fun c => c = ';') ch).length :=
        List.length_pos.mpr (splitP_ne_nil _ ch)
      rw [audio_split_length]
      constructor
      · rintro ⟨hk, hlen⟩
        exact ⟨hc, by omega⟩
      · rintro ⟨-, hlen⟩
        constructor <;> omega
    · rw [if_neg hc]
      simp only [ne_eq, not_not] at hc
      simp [hc]
  exact ⟨main, (main 2 (str "anull") (str "[0:a:0]x")).mpr ⟨by decide, by decide⟩⟩

/-! ## Chain well-formedness (claim C3)

Bracket balance and `;`-segmentation of chain strings. -/

/-- Bracket balance check: scan the text keeping the current nesting depth;
the text is balanced from depth `d` when no prefix dips below depth zero and
the final depth is zero. -/
def balancedFrom : Str → Nat → Bool
  | [], d => d = 0
  | c :: r, d =>
    if c = '[' then balancedFrom r (d + 1)
    else if c = ']' then
      match d with
      | 0 => false
      | d' + 1 => balancedFrom r d'
    else balancedFrom r d

/-- A chain string has balanced square brackets. -/
def balanced (l : Str) : Bool := balancedFrom l 0

/-- The filter text contains no chain separator. -/
def noSemi (l : Str) : Prop := ∀ c ∈ l, c ≠ ';'

/-- Characters that are neither separators nor brackets. -/
def plainStr (l : Str) : Prop := ∀ c ∈ l, c ≠ ';' ∧ c ≠ '[' ∧ c ≠ ']'

instance (l : Str) : Decidable (noSemi l) :=
  inferInstanceAs (Decidable (∀ c ∈ l, c ≠ ';'))

instance (l : Str) : Decidable (plainStr l) :=
  inferInstanceAs (Decidable (∀ c ∈ l, c ≠ ';' ∧ c ≠ '[' ∧ c ≠ ']'))

/-- The well-formedness invariant of claim C3: balanced brackets, and no
empty `;`-delimited segment (trivially so for the empty chain). -/
def ChainInv (l : Str) : Prop :=
  balanced l = true ∧ (l = [] ∨ ∀ s ∈ splitP (fun c => c = ';') l, s ≠ [])

theorem balancedFrom_append {x : Str} :
    ∀ {d : Nat}, balancedFrom x d = true → ∀ y, balancedFrom (x ++ y) d = balancedFrom y 0 := by
  induction x with
  | nil =>
    intro d h y
    simp only [balancedFrom, decide_eq_true_eq] at h
    subst h
    rfl
  | cons c r ih =>
    intro d h y
    rw [List.cons_append]
    simp only [balancedFrom] at h ⊢
    split_ifs with h1 h2
    · rw [if_pos h1] at h
      exact ih h y
    · rw [if_neg h1, if_pos h2] at h
      cases d with
      | zero => simp at h
      | succ d' => exact ih h y
    · rw [if_neg h1, if_neg h2] at h
      exact ih h y

theorem balanced_append {x y : Str} (hx : balanced x = true) (hy : balanced y = true) :
    balanced (x ++ y) = true := by
  unfold balanced at *
  rw [balancedFrom_append hx y]
  exact hy

theorem balancedFrom_plain {m : Str} (hm : ∀ c ∈ m, c ≠ '[' ∧ c ≠ ']') :
    ∀ (rest : Str) (d : Nat), balancedFrom (m ++ rest) d = balancedFrom rest d := by
  induction m with
  | nil => intro rest d; rfl
  | cons c r ih =>
    intro rest d
    obtain ⟨h1, h2⟩ := hm c (by simp)
    rw [List.cons_append]
    simp only [balancedFrom, if_neg h1, if_neg h2]
    exact ih (fun c hc => hm c (by simp [hc])) rest d

theorem balanced_of_plain {m : Str} (hm : plainStr m) : balanced m = true := by
  have := balancedFrom_plain (fun c hc => (hm c hc).2) [] 0
  simpa [balanced] using this

theorem noSemi_of_plain {m : Str} (hm : plainStr m) : noSemi m :=
  fun c hc => (hm c hc).1

theorem plain_append {a b : Str} (ha : plainStr a) (hb : plainStr b) : plainStr (a ++ b) := by
  intro c hc
  rcases List.mem_append.mp hc with h | h
  · exact ha c h
  · exact hb c h

theorem noSemi_append {a b : Str} (ha : noSemi a) (hb : noSemi b) : noSemi (a ++ b) := by
  intro c hc
  rcases List.mem_append.mp hc with h | h
  · exact ha c h
  · exact hb c h

/-- The decimal digits of a natural number are plain characters. -/
theorem plain_toDigitsCore :
    ∀ (fuel n : Nat) (ds : Str), plainStr ds → plainStr (Nat.toDigitsCore 10 fuel n ds) := by
  intro fuel
  induction fuel with
  | zero => intro n ds h; exact h
  | succ fuel ih =>
    intro n ds h
    rw [Nat.toDigitsCore]
    have hd : plainStr (Nat.digitChar (n % 10) :: ds) := by
      intro c hc
      rcases List.mem_cons.mp hc with h' | h'
      · subst h'
        have : n % 10 < 10 := Nat.mod_lt _ (by omega)
        interval_cases h' : n % 10 <;> decide
      · exact h c h'
    split_ifs
    · exact hd
    · exact ih (n / 10) _ hd

theorem plain_natStr (n : Nat) : plainStr (natStr n) :=
  plain_toDigitsCore (n + 1) n [] (by intro c hc; simp at hc)

theorem plain_intStr (i : Int) : plainStr (intStr i) := by
  unfold intStr
  split_ifs
  · intro c hc
    rcases List.mem_cons.mp hc with h' | h'
    · subst h'; decide
    · exact plain_natStr _ c h'
  · exact plain_natStr _

theorem plain_tstr (t : FilterType) : plainStr t.tstr := by
  cases t <;> decide

/-! Segmentation lemmas. -/

theorem splitP_noSep {p : Char → Bool} :
    ∀ {y : Str}, (∀ c ∈ y, ¬p c) → splitP p y = [y] := by
  intro y
  induction y with
  | nil => intro _; rfl
  | cons c r ih =>
    intro h
    rw [splitP, if_neg (h c (by simp)), ih (fun c hc => h c (by simp [hc]))]

theorem splitP_append_sep {p : Char → Bool} {c : Char} (hc : p c = true) :
    ∀ (x y : Str), splitP p (x ++ c :: y) = splitP p x ++ splitP p y := by
  intro x
  induction x with
  | nil =>
    intro y
    rw [List.nil_append]
    simp only [splitP, if_pos hc]
    rfl
  | cons a x' ih =>
    intro y
    rw [List.cons_append]
    simp only [splitP]
    by_cases ha : p a
    · rw [if_pos ha, if_pos ha, ih y, List.cons_append]
    · rw [if_neg ha, if_neg ha, ih y]
      cases hx : splitP p x' with
      | nil => exact absurd hx (splitP_ne_nil p x')
      | cons s ss => rfl

theorem splitP_append_noSep {p : Char → Bool} {y : Str} (hy : ∀ c ∈ y, ¬p c) :
    ∀ x : Str, ∃ pre last,
      splitP p x = pre ++ [last] ∧ splitP p (x ++ y) = pre ++ [last ++ y] := by
  intro x
  induction x with
  | nil =>
    refine ⟨[], [], rfl, ?_⟩
    rw [List.nil_append, splitP_noSep hy]
    rfl
  | cons a x' ih =>
    obtain ⟨pre, last, h1, h2⟩ := ih
    by_cases ha : p a
    · refine ⟨[] :: pre, last, ?_, ?_⟩
      · simp only [splitP, if_pos ha, h1]
        rfl
      · rw [List.cons_append]
        simp only [splitP, if_pos ha, h2]
        rfl
    · cases hpre : pre with
      | nil =>
        subst hpre
        refine ⟨[], a :: last, ?_, ?_⟩
        · simp only [splitP, if_neg ha, h1]
          simp
        · rw [List.cons_append]
          simp only [splitP, if_neg ha, h2]
          simp
      | cons q qs =>
        subst hpre
        refine ⟨(a :: q) :: qs, last, ?_, ?_⟩
        · simp only [splitP, if_neg ha, h1]
          rfl
        · rw [List.cons_append]
          simp only [splitP, if_neg ha, h2]
          rfl

/-! Invariant preservation under the append shapes `add_filter` uses. -/

theorem chainInv_nil : ChainInv [] := ⟨rfl, Or.inl rfl⟩

theorem chainInv_append_noSemi {l P : Str} (h : ChainInv l) (hPs : noSemi P)
    (hPb : balanced P = true) : ChainInv (l ++ P) := by
  obtain ⟨hb, hseg⟩ := h
  refine ⟨balanced_append hb hPb, ?_⟩
  rcases hseg with hl | hseg
  · subst hl
    rw [List.nil_append]
    by_cases hP : P = []
    · exact Or.inl hP
    · refine Or.inr ?_
      rw [splitP_noSep (fun c hc => by simpa using hPs c hc)]
      simpa using hP
  · refine Or.inr ?_
    obtain ⟨pre, last, h1, h2⟩ :=
      splitP_append_noSep (p := fun c => c = ';') (fun c hc => by simpa using hPs c hc) l
    rw [h2]
    intro s hs
    rcases List.mem_append.mp hs with h' | h'
    · exact hseg s (by rw [h1]; exact List.mem_append.mpr (Or.inl h'))
    · have hlast : last ≠ [] := hseg last (by rw [h1]; simp)
      rcases List.mem_singleton.mp h' with rfl
      exact append_ne_nil_left hlast _

theorem chainInv_append_sep {l p1 p2 : Str} (h : ChainInv l) (hp1s : noSemi p1)
    (hp1b : balanced p1 = true) (hp2s : noSemi p2) (hp2b : balanced p2 = true)
    (hp2n : p2 ≠ []) (hne : l ≠ [] ∨ p1 ≠ []) :
    ChainInv (l ++ p1 ++ str ";" ++ p2) := by
  obtain ⟨hb, hseg⟩ := h
  have hb1 : balanced (l ++ p1) = true := balanced_append hb hp1b
  have hsemi : balanced (str ";") = true := by decide
  refine ⟨balanced_append (balanced_append hb1 hsemi) hp2b, Or.inr ?_⟩
  have hshape : l ++ p1 ++ str ";" ++ p2 = (l ++ p1) ++ ';' :: p2 := by
    simp [str]
  have hsplit : splitP (fun c => c = ';') (l ++ p1 ++ str ";" ++ p2) =
      splitP (fun c => c = ';') (l ++ p1) ++ [p2] := by
    rw [hshape, splitP_append_sep (by decide) (l ++ p1) p2,
      splitP_noSep (y := p2) (fun c hc => by simpa using hp2s c hc)]
  rw [hsplit]
  have hmem : ∀ s ∈ splitP (fun c => c = ';') (l ++ p1), s ≠ [] := by
    intro s hs
    obtain ⟨pre, last, h1, h2⟩ :=
      splitP_append_noSep (p := fun c => c = ';') (y := p1)
        (fun c hc => by simpa using hp1s c hc) l
    rw [h2] at hs
    rcases List.mem_append.mp hs with h' | h'
    · rcases hseg with hl | hseg
      · subst hl
        have hpre : pre = [] := by
          rcases hpre' : pre with _ | ⟨q, qs⟩
          · rfl
          · rw [hpre'] at h1
            simp [splitP] at h1
        subst hpre
        simp at h'
      · exact hseg s (by rw [h1]; exact List.mem_append.mpr (Or.inl h'))
    · rcases List.mem_singleton.mp h' with rfl
      rcases hseg with hl | hseg
      · subst hl
        have hp1n : p1 ≠ [] := by
          rcases hne with h'' | h''
          · exact absurd rfl h''
          · exact h''
        exact append_ne_nil_right _ hp1n
      · have hlast : last ≠ [] := hseg last (by rw [h1]; simp)
        exact append_ne_nil_left hlast _
  intro s hs
  rcases List.mem_append.mp hs with h' | h'
  · exact hmem s h'
  · rcases List.mem_singleton.mp h' with rfl
    exact hp2n

/-! Well-formedness of the text pieces `add_filter` appends. -/

theorem plain_hw_upload_str (cfg : PlayoutConfig) : plainStr (hw_upload_str cfg) := by
  unfold hw_upload_str
  cases cfg.advanced.decoder.input_param with
  | none => decide
  | some p =>
    dsimp only
    split_ifs <;> decide

theorem plain_hw_upload (cfg : PlayoutConfig) (chain f : Str) :
    plainStr (hw_upload cfg chain f) := by
  unfold hw_upload
  split_ifs
  · exact plain_hw_upload_str cfg
  · decide

theorem plain_hw_download (chain f : Str) : plainStr (hw_download chain f) := by
  unfold hw_download
  split_ifs <;> decide

theorem plain_hwDlBridge (hw : Bool) (f : Str) (t : FilterType) :
    plainStr (hwDlBridge hw f t) := by
  unfold hwDlBridge
  split_ifs <;> decide

theorem balanced_wrap {m : Str} (hm : plainStr m) :
    balanced (str "[" ++ m ++ str "]") = true := by
  have hshape : str "[" ++ m ++ str "]" = '[' :: (m ++ [']']) := by simp [str]
  unfold balanced
  rw [hshape]
  have h1 : balancedFrom ('[' :: (m ++ [']'])) 0 = balancedFrom (m ++ [']']) 1 := by
    simp [balancedFrom]
  rw [h1, balancedFrom_plain (fun c hc => (hm c hc).2) [']'] 1]
  decide

theorem noSemi_wrap {m : Str} (hm : plainStr m) : noSemi (str "[" ++ m ++ str "]") :=
  noSemi_append (noSemi_append (by decide) (noSemi_of_plain hm)) (by decide)

theorem outLabel_wf (t : FilterType) (nr : Int) :
    noSemi (outLabel t nr) ∧ balanced (outLabel t nr) = true := by
  have hm : plainStr (t.tstr ++ str "out" ++ intStr nr) :=
    plain_append (plain_append (plain_tstr t) (by decide)) (plain_intStr nr)
  have hshape : outLabel t nr = str "[" ++ (t.tstr ++ str "out" ++ intStr nr) ++ str "]" := by
    simp [outLabel, List.append_assoc]
  rw [hshape]
  exact ⟨noSemi_wrap hm, balanced_wrap hm⟩

theorem inputSelector_wf (pos : Int) (t : FilterType) (nr : Int) :
    noSemi (inputSelector pos t nr) ∧ balanced (inputSelector pos t nr) = true ∧
      inputSelector pos t nr ≠ [] := by
  have hm : plainStr (intStr pos ++ str ":" ++ t.tstr ++ str ":" ++ intStr nr) :=
    plain_append (plain_append (plain_append (plain_append (plain_intStr pos) (by decide))
      (plain_tstr t)) (by decide)) (plain_intStr nr)
  have hshape : inputSelector pos t nr =
      str "[" ++ (intStr pos ++ str ":" ++ t.tstr ++ str ":" ++ intStr nr) ++ str "]" := by
    simp [inputSelector, List.append_assoc]
  rw [hshape]
  refine ⟨noSemi_wrap hm, balanced_wrap hm, ?_⟩
  exact append_ne_nil_left (append_ne_nil_left (by decide) _) _

/-- A generator filter is not the empty string. -/
theorem isGenerator_ne_nil {f : Str} (h : isGenerator f = true) : f ≠ [] := by
  rcases Bool.or_eq_true _ _ |>.mp h with h' | h'
  · exact ne_nil_of_isPrefixOf h' (by decide)
  · exact ne_nil_of_isPrefixOf h' (by decide)

/-- The body written on a track transition is a well-formed non-empty
piece. -/
theorem transition_body_wf (pos : Int) (t : FilterType) (nr : Int) (hw : Bool) {f : Str}
    (hfb : balanced f = true) (hfs : noSemi f) :
    noSemi (if isGenerator f then f
        else inputSelector pos t nr ++ hwDlBridge hw f t ++ f) ∧
      balanced (if isGenerator f then f
        else inputSelector pos t nr ++ hwDlBridge hw f t ++ f) = true ∧
      (if isGenerator f then f
        else inputSelector pos t nr ++ hwDlBridge hw f t ++ f) ≠ [] := by
  obtain ⟨hs1, hb1, hn1⟩ := inputSelector_wf pos t nr
  have hdl := plain_hwDlBridge hw f t
  split_ifs with hg
  · exact ⟨hfs, hfb, isGenerator_ne_nil hg⟩
  · refine ⟨noSemi_append (noSemi_append hs1 (noSemi_of_plain hdl)) hfs,
      balanced_append (balanced_append hb1 (balanced_of_plain hdl)) hfb, ?_⟩
    exact append_ne_nil_left (append_ne_nil_left hn1 _) _

/-- The chain invariant is preserved by every branch of the core. -/
theorem add_filter_core_inv (cfg : PlayoutConfig) (hw : Bool) (chain : Str)
    (pos last : Int) (f : Str) (nr : Int) (t : FilterType) (hInv : ChainInv chain)
    (hfb : balanced f = true) (hfs : noSemi f) :
    ChainInv (add_filter_core cfg hw chain pos last f nr t).1 := by
  obtain ⟨hbody_s, hbody_b, hbody_n⟩ := transition_body_wf pos t nr hw hfb hfs
  by_cases h : last ≠ nr
  · rw [add_filter_core_transition cfg hw chain pos last f nr t h]
    dsimp only
    by_cases hc : chain = []
    · subst hc
      rw [if_pos rfl]
      have hinv :
          ChainInv ([] ++ (if isGenerator f then f
            else inputSelector pos t nr ++ hwDlBridge hw f t ++ f)) :=
        chainInv_append_noSemi chainInv_nil hbody_s hbody_b
      simpa using hinv
    · rw [if_neg hc]
      obtain ⟨hl_s, hl_b⟩ := outLabel_wf t last
      have hinv := chainInv_append_sep hInv hl_s hl_b hbody_s hbody_b hbody_n (Or.inl hc)
      have hshape : chain ++ (outLabel t last ++ str ";") ++
          (if isGenerator f then f
            else inputSelector pos t nr ++ hwDlBridge hw f t ++ f) =
          chain ++ outLabel t last ++ str ";" ++
          (if isGenerator f then f
            else inputSelector pos t nr ++ hwDlBridge hw f t ++ f) := by
        simp [List.append_assoc]
      rw [hshape]
      exact hinv
  · rw [add_filter_core, if_neg h]
    dsimp only
    split_ifs with h1 h2 h3 h4 h5
    · -- link-expression case
      have i1 := chainInv_append_noSemi hInv
        (noSemi_of_plain (plain_hw_upload cfg chain f))
        (balanced_of_plain (plain_hw_upload cfg chain f))
      have i2 := chainInv_append_noSemi i1
        (noSemi_of_plain (plain_hw_download (chain ++ hw_upload cfg chain f) f))
        (balanced_of_plain (plain_hw_download (chain ++ hw_upload cfg chain f) f))
      exact chainInv_append_noSemi i2 hfs hfb
    · -- overlay case with upload bridge
      have hpre : plainStr (str "," ++ hw_upload_str cfg) :=
        plain_append (by decide) (plain_hw_upload_str cfg)
      have i1 : ChainInv (chain ++ str "," ++ hw_upload_str cfg) := by
        have := chainInv_append_noSemi hInv (noSemi_of_plain hpre) (balanced_of_plain hpre)
        simpa [List.append_assoc] using this
      have i2 : ChainInv (chain ++ str "," ++ hw_upload_str cfg ++ str "[l]" ++ str ";" ++
          (str "[v][l]" ++ f)) :=
        chainInv_append_sep i1 (by decide) (by decide) (noSemi_append (by decide) hfs)
          (balanced_append (by decide) hfb)
          (append_ne_nil_left (by decide) _) (Or.inr (by decide))
      have hshape : chain ++ str "," ++ hw_upload_str cfg ++ str "[l];[v][l]" ++ f =
          chain ++ str "," ++ hw_upload_str cfg ++ str "[l]" ++ str ";" ++
            (str "[v][l]" ++ f) := by
        simp [str, List.append_assoc]
      rw [hshape]
      simpa [List.append_assoc] using i2
    · -- overlay case without upload bridge
      have i2 : ChainInv (chain ++ str "[l]" ++ str ";" ++ (str "[v][l]" ++ f)) :=
        chainInv_append_sep hInv (by decide) (by decide) (noSemi_append (by decide) hfs)
          (balanced_append (by decide) hfb)
          (append_ne_nil_left (by decide) _) (Or.inr (by decide))
      have hshape : chain ++ str "[l];[v][l]" ++ f =
          chain ++ str "[l]" ++ str ";" ++ (str "[v][l]" ++ f) := by
        simp [str, List.append_assoc]
      rw [hshape]
      simpa [List.append_assoc] using i2
    · -- ordinary case, bridge pieces present
      exact chainInv_append_noSemi
        (chainInv_append_noSemi
          (chainInv_append_noSemi
            (chainInv_append_noSemi
              (chainInv_append_noSemi (P := str ",") hInv (by decide) (by decide))
              (noSemi_of_plain (plain_hw_upload cfg chain f))
              (balanced_of_plain (plain_hw_upload cfg chain f)))
            (noSemi_of_plain (plain_hw_download chain f))
            (balanced_of_plain (plain_hw_download chain f)))
          (P := str ",") (by decide) (by decide))
        hfs hfb
    · -- ordinary case, proactive upload before a label-opening filter
      exact chainInv_append_noSemi
        (chainInv_append_noSemi
          (chainInv_append_noSemi
            (chainInv_append_noSemi (P := str ",") hInv (by decide) (by decide))
            (noSemi_of_plain (plain_hw_upload_str cfg))
            (balanced_of_plain (plain_hw_upload_str cfg)))
          (P := str ",") (by decide) (by decide))
        hfs hfb
    · -- ordinary case, no bridging
      exact chainInv_append_noSemi
        (chainInv_append_noSemi (P := str ",") hInv (by decide) (by decide)) hfs hfb

/-- Invariant propagation over a call sequence. -/
theorem runFilters_inv :
    ∀ (calls : List Call) (st : Filters), ChainInv st.video_chain → ChainInv st.audio_chain →
      (∀ c ∈ calls, balanced c.1 = true ∧ noSemi c.1) →
      ChainInv (runFilters st calls).video_chain ∧ ChainInv (runFilters st calls).audio_chain
  | [], _, hv, ha, _ => ⟨hv, ha⟩
  | c :: cs, st, hv, ha, hcalls => by
    obtain ⟨f, nr, t⟩ := c
    obtain ⟨hb, hs⟩ := hcalls (f, nr, t) (by simp)
    have step : runFilters st ((f, nr, t) :: cs) = runFilters (st.add_filter f nr t) cs := rfl
    rw [step]
    refine runFilters_inv cs _ ?_ ?_ (fun d hd => hcalls d (by simp [hd]))
    · cases t
      · exact hv
      · exact add_filter_core_inv st.config st.hw_context st.video_chain st.video_position
          st.video_last f nr .Video hv hb hs
    · cases t
      · exact add_filter_core_inv st.config st.hw_context st.audio_chain st.audio_position
          st.audio_last f nr .Audio ha hb hs
      · exact ha

/-- Claim C3 (amended): for every sequence of `add_filter` calls applied to a
freshly constructed graph state whose filter expressions are themselves
bracket-balanced and contain no `;`, the resulting video and audio chains
have balanced square brackets and no empty `;`-delimited segment. -/
theorem runFilters_chain_wf (cfg : PlayoutConfig) (apos : Int) (calls : List Call)
    (hcalls : ∀ c ∈ calls, balanced c.1 = true ∧ noSemi c.1) :
    ChainInv (runFilters (Filters.new cfg apos) calls).video_chain ∧
      ChainInv (runFilters (Filters.new cfg apos) calls).audio_chain :=
  runFilters_inv calls (Filters.new cfg apos) chainInv_nil chainInv_nil hcalls

/-- Witness for C3 at a concrete input: a single well-formed append. -/
theorem runFilters_chain_wf_witness :
    ChainInv (runFilters (Filters.new cfg0 0) [(str "scale=1:1", 0, .Video)]).video_chain ∧
      ChainInv (runFilters (Filters.new cfg0 0) [(str "scale=1:1", 0, .Video)]).audio_chain :=
  runFilters_chain_wf cfg0 0 [(str "scale=1:1", 0, .Video)] (by decide)

/-- Counterexample for C3 as stated: the single-call sequence with filter `]`
leaves the video chain `[0:v:0]]` with unbalanced brackets, and the
single-call sequence with the overlay stage's real relabelling filter
`null[v];` leaves a chain with an empty trailing `;`-segment. -/
theorem runFilters_chain_wf_cex :
    balanced ((Filters.new cfg0 0).add_filter (str "]") 0 .Video).video_chain = false ∧
      ([] : Str) ∈ splitP (fun c => c = ';')
        ((Filters.new cfg0 0).add_filter (str "null[v];") 0 .Video).video_chain := by
  decide
